import Mathlib

set_option maxHeartbeats 1000000

namespace BBTF

/-! Shallow embedding of the BBTF Monte-Carlo detector-response simulator:
the parameter store (`parameter_handler.py`), the seed derivation and the
random-variate generator layer (`generator.py`), the interpolation tables
(`interp.py`), and the stage/pipeline composition (`block.py`, `model.py`).
Python floats are modelled as rationals, TF tensors as a static shape plus
row-major flat data, and the TF stateless sampler kernels as deterministic
functions of seed, distribution parameters and element position. -/

/-- Python values that can appear as parameter-store values or as the `vals`
argument of `set_parameter` (the store is dynamically typed). -/
inductive PyVal where
  | int : ℤ → PyVal
  | float : ℚ → PyVal
  | str : String → PyVal
  | list : List PyVal → PyVal
  | none : PyVal

/-- The parameter store: model of the Python dict `_parameter_dict` as an
insertion-ordered association list with unique keys. -/
abbrev PStore := List (String × PyVal)

/-- Model of Python `key in dict`. -/
def containsKey (pd : PStore) (k : String) : Bool :=
  pd.any fun e => e.1 == k

/-- Model of Python `dict[key]` lookup (first matching entry). -/
def lookupVal (pd : PStore) (k : String) : Option PyVal :=
  (pd.find? fun e => e.1 == k).map (·.2)

/-- Model of Python `dict[key] = val`: overwrite in place when the key exists,
append otherwise. -/
def dictAssign (pd : PStore) (k : String) (v : PyVal) : PStore :=
  if containsKey pd k then pd.map (fun e => if e.1 == k then (e.1, v) else e)
  else pd ++ [(k, v)]

/-- The default `_parameter_dict` built by `ParameterHandler.__init__`. -/
def defaultParameterDict : PStore :=
  [("w", .float (138 / 10000)),
   ("ex_ion_ratio", .float (1 / 10)),
   ("lindhard", .float 1),
   ("gamma", .float (124 / 1000)),
   ("omega", .float 31),
   ("delta", .float (24 / 100)),
   ("q0", .float (113 / 100)),
   ("q1", .float (47 / 100)),
   ("q2", .float (41 / 1000)),
   ("q3", .float (17 / 10)),
   ("field", .float 120),
   ("fano", .float (59 / 1000))]

/-- The `keys` argument of the `ParameterHandler` methods: a single name, a
list of names, or a dict. -/
inductive PKeys where
  | str : String → PKeys
  | list : List String → PKeys
  | dict : List (String × PyVal) → PKeys

/-- The `not_exist` payload produced by `check_parameter_exist` with
`return_not_exist=True`: a list of missing names in the list case, the bare
name string in the single-name case. -/
inductive ChkRes where
  | str : String → ChkRes
  | list : List String → ChkRes
deriving DecidableEq, Repr

/-- The Python exceptions raised by `parameter_handler.py` and `block.py`.
`notFound` is the AssertionError whose message formats the `not_exist`
payload, `notFoundHandler` the analogous one raised at stage binding,
`lenMismatch` and `valTypeErr` the other two assertions of `set_parameter`,
`typeErr` the TypeError from taking `len` of a non-sequence. -/
inductive PyErr where
  | notFound : ChkRes → PyErr
  | notFoundHandler : ChkRes → PyErr
  | lenMismatch : PyErr
  | valTypeErr : PyErr
  | valueError : PyErr
  | keyError : String → PyErr
  | typeErr : PyErr

/-- The list branch of `check_parameter_exist` with `return_not_exist=True`:
collect the missing names in input order, report whether there are none. -/
def checkListExist (pd : PStore) (ks : List String) : Bool × ChkRes :=
  let not_exist := ks.filter fun k => !(containsKey pd k)
  (not_exist.isEmpty, .list not_exist)

/-- Model of `ParameterHandler.check_parameter_exist` with
`return_not_exist=True`. The dict branch recurses on the list of keys; here
that recursion is unfolded into `checkListExist`, which is what the recursive
call evaluates to. With `return_not_exist=False` the code returns just the
first component. -/
def checkParameterExist (pd : PStore) : PKeys → Bool × ChkRes
  | .list ks => checkListExist pd ks
  | .str k => (containsKey pd k, .str k)
  | .dict d => checkListExist pd (d.map (·.1))

/-- Result of `__getitem__` and `get_parameter`: a bare value for a single
name, a value sequence (the `np.array`) for a list of names. -/
inductive GetRes where
  | scalar : PyVal → GetRes
  | array : List PyVal → GetRes

/-- The list comprehension `[self._parameter_dict[key] for key in keys]`:
left-to-right lookup, raising KeyError at the first missing key. -/
def lookupAll (pd : PStore) : List String → Except PyErr (List PyVal)
  | [] => .ok []
  | k :: ks =>
    match lookupVal pd k with
    | some v => (lookupAll pd ks).map (v :: ·)
    | Option.none => .error (.keyError k)

/-- Model of `ParameterHandler.__getitem__`. -/
def getItem (pd : PStore) : PKeys → Except PyErr GetRes
  | .list ks => (lookupAll pd ks).map .array
  | .str k =>
    match lookupVal pd k with
    | some v => .ok (.scalar v)
    | Option.none => .error (.keyError k)
  | .dict _ => .error .valueError

/-- Model of `ParameterHandler.get_parameter`: assert that every requested
name exists (the assertion message formats the whole `not_exist` payload),
then delegate to `__getitem__`. -/
def getParameter (pd : PStore) (keys : PKeys) : Except PyErr GetRes :=
  let r := checkParameterExist pd keys
  if r.1 then getItem pd keys else .error (.notFound r.2)

/-- Python `isinstance(v, (float, int))`. -/
def isNumeric : PyVal → Bool
  | .int _ => true
  | .float _ => true
  | _ => false

/-- The list-keys branch of `set_parameter` (including the existence check
that precedes it), in state-passing style: the returned store is the store at
the moment the call returns or raises. A `vals` that is not a list fails in
`len(vals)`; the corner case of a string `vals` (whose characters Python
would zip with the keys) is not modelled. -/
def setParameterList (pd : PStore) (ks : List String) (vals : PyVal) :
    PStore × Option PyErr :=
  let r := checkListExist pd ks
  if !r.1 then (pd, some (.notFound r.2)) else
    match vals with
    | .list vs =>
      if ks.length = vs.length then
        ((ks.zip vs).foldl (fun s e => dictAssign s e.1 e.2) pd, Option.none)
      else (pd, some .lenMismatch)
    | _ => (pd, some .typeErr)

/-- Model of `ParameterHandler.set_parameter`, state-passing. The dict branch
recursively calls `set_parameter` on the key list with the dict's values
(after an existence check that the recursive call repeats); that recursion is
unfolded into `setParameterList`, which is what it evaluates to. -/
def setParameter (pd : PStore) (keys : PKeys) (vals : PyVal) : PStore × Option PyErr :=
  match keys with
  | .str k =>
    let r := checkParameterExist pd (.str k)
    if !r.1 then (pd, some (.notFound r.2))
    else if isNumeric vals then (dictAssign pd k vals, Option.none)
    else (pd, some .valTypeErr)
  | .list ks => setParameterList pd ks vals
  | .dict d => setParameterList pd (d.map (·.1)) (.list (d.map (·.2)))

/-- A simulation block's parameter-binding state (model of `_BlockBase`; the
dynamic per-name attribute injection is represented by `param_dict`). -/
structure Block where
  param_names : List String
  param_values : List PyVal
  param_dict : List (String × PyVal)

/-- Model of `_BlockBase.update_parameter_from_handler`: assert that every
declared parameter name exists (message formats the missing-name list), then
rebind all values from the store. The fallback branch is unreachable because
`get_parameter` succeeds on a list of existing names. -/
def updateParameterFromHandler (b : Block) (pd : PStore) : Block × Option PyErr :=
  let r := checkListExist pd b.param_names
  if !r.1 then (b, some (.notFoundHandler r.2)) else
    match getParameter pd (.list b.param_names) with
    | .ok (.array vs) =>
      ({ b with param_values := vs, param_dict := b.param_names.zip vs }, Option.none)
    | _ => (b, Option.none)

/-- The requested names absent from the store, in request order (the value
the `not_exist` accumulation loop computes). -/
def missingNames (pd : PStore) (ks : List String) : List String :=
  ks.filter fun k => !(containsKey pd k)

/-- Model of `time.time_ns`: the successive readings of the wall clock,
indexed by how many reads have happened so far in the process. -/
def Clock : Type := ℕ → ℕ

/-- A wall clock never runs backwards. -/
def Clock.Mono (c : Clock) : Prop := ∀ i j, i ≤ j → c i ≤ c j

/-- Model of `generator._get_seed`: a call entered after `k` earlier clock
reads performs two successive reads and returns the pair
`[time_ns(), time_ns() + 1000]`. -/
def getSeed (c : Clock) (k : ℕ) : ℕ × ℕ := (c k, c (k + 1) + 1000)

/-- A TF tensor: static shape plus row-major flat data (float32 values
modelled as rationals). -/
structure Tensor where
  shape : List ℕ
  data : List ℚ
deriving DecidableEq, Repr

/-- Model of `tf.convert_to_tensor` on a Python scalar. -/
def scalarT (q : ℚ) : Tensor := ⟨[], [q]⟩

/-- Errors raised inside the TF layer: broadcast-incompatible shapes, and the
`vmin < vmax` assertion of `truncated_normal`. -/
inductive TFErr where
  | shapeMismatch
  | invalidRange
deriving DecidableEq, Repr

/-- Right-aligned combination of two reversed shape lists (the helper recursion
behind `broadcastStaticShape`). -/
def bcastRev : List ℕ → List ℕ → Option (List ℕ)
  | [], ys => some ys
  | x :: xs, [] => some (x :: xs)
  | x :: xs, y :: ys =>
    match bcastRev xs ys with
    | Option.none => Option.none
    | some rest =>
      if x = y then some (x :: rest)
      else if x = 1 then some (y :: rest)
      else if y = 1 then some (x :: rest)
      else Option.none

/-- Model of `tf.broadcast_static_shape`: the standard trailing-dimension
broadcast rule (shapes aligned from the right, a size-1 axis stretches);
`none` when the shapes are incompatible. -/
def broadcastStaticShape (s1 s2 : List ℕ) : Option (List ℕ) :=
  (bcastRev s1.reverse s2.reverse).map List.reverse

/-- Row-major multi-index of flat index `i` in a tensor of the given shape. -/
def unflattenIdx : List ℕ → ℕ → List ℕ
  | [], _ => []
  | _ :: ds, i => i / ds.prod :: unflattenIdx ds (i % ds.prod)

/-- Row-major flat index of a multi-index. -/
def flattenIdx : List ℕ → List ℕ → ℕ
  | _ :: ds, j :: js => j * ds.prod + flattenIdx ds js
  | _, _ => 0

/-- Index into an operand of shape `src` of the element that broadcasts to
flat position `i` of a result of shape `outS`: missing leading axes are
dropped, size-1 axes are pinned to index 0. -/
def bcastIdx (src outS : List ℕ) (i : ℕ) : ℕ :=
  let multi := (unflattenIdx outS i).drop (outS.length - src.length)
  flattenIdx src (src.zipWith (fun d j => if d = 1 then 0 else j) multi)

/-- The element of `t` that broadcasts to flat position `i` of a result of
shape `outS`. -/
def elemAt (t : Tensor) (outS : List ℕ) (i : ℕ) : ℚ :=
  t.data.getD (bcastIdx t.shape outS i) 0

/-- The TF stateless sampler kernels and the elementwise transcendental
kernels used by the generator layer and the mTI stage.
`tf.random.stateless_*` really are pure functions of seed, shape position and
distribution parameters, so they are modelled as deterministic per-element
draw functions. `texp`, `tlog` and the Python float power `fpow` are opaque
numeric functions: no claim depends on their values. -/
structure TFEnv where
  statelessUniform : ℕ × ℕ → ℚ → ℚ → ℕ → ℚ
  statelessNormal : ℕ × ℕ → ℚ → ℚ → ℕ → ℚ
  statelessBinomial : ℕ × ℕ → ℚ → ℚ → ℕ → ℤ
  texp : ℚ → ℚ
  tlog : ℚ → ℚ
  fpow : ℚ → ℚ → ℚ

/-- The output-shape rule shared by all generator functions: the broadcast
shape when `shape` is `None`, otherwise the given shape concatenated in
front of it (`tf.concat([shape, broadcast_shape], axis=0)`). -/
def outShape (shape : Option (List ℕ)) (b : List ℕ) : List ℕ :=
  match shape with
  | Option.none => b
  | some s => s ++ b

/-- Model of `generator.normal`: broadcast mean and std, then draw one normal
variate per output element. -/
def normalT (env : TFEnv) (seed : ℕ × ℕ) (mean std : Tensor)
    (shape : Option (List ℕ)) : Except TFErr Tensor :=
  match broadcastStaticShape mean.shape std.shape with
  | Option.none => .error .shapeMismatch
  | some b =>
    let os := outShape shape b
    .ok ⟨os, (List.range os.prod).map fun i =>
      env.statelessNormal seed (elemAt mean os i) (elemAt std os i) i⟩

/-- Model of `generator.uniform`: broadcast the bounds, then draw one uniform
variate per output element. -/
def uniformT (env : TFEnv) (seed : ℕ × ℕ) (minval maxval : Tensor)
    (shape : Option (List ℕ)) : Except TFErr Tensor :=
  match broadcastStaticShape minval.shape maxval.shape with
  | Option.none => .error .shapeMismatch
  | some b =>
    let os := outShape shape b
    .ok ⟨os, (List.range os.prod).map fun i =>
      env.statelessUniform seed (elemAt minval os i) (elemAt maxval os i) i⟩

/-- Model of `tf.clip_by_value` with scalar bounds. -/
def clipT (lo hi : ℚ) (t : Tensor) : Tensor :=
  ⟨t.shape, t.data.map fun x => min (max x lo) hi⟩

/-- Model of `generator.binomial`: counts are cast to float (the identity
here), probs are clipped into [0, 1], the two are broadcast, and one integer
draw is taken per output element (`stateless_binomial` outputs int32). -/
def binomialT (env : TFEnv) (seed : ℕ × ℕ) (counts probs : Tensor)
    (shape : Option (List ℕ)) : Except TFErr Tensor :=
  let probsC := clipT 0 1 probs
  match broadcastStaticShape counts.shape probsC.shape with
  | Option.none => .error .shapeMismatch
  | some b =>
    let os := outShape shape b
    .ok ⟨os, (List.range os.prod).map fun i =>
      ((env.statelessBinomial seed (elemAt counts os i) (elemAt probsC os i) i : ℤ) : ℚ)⟩

/-- Model of `tf.where(rv <= v, v, rv)` with a scalar bound. -/
def whereLE (v : ℚ) (t : Tensor) : Tensor :=
  ⟨t.shape, t.data.map fun x => if x ≤ v then v else x⟩

/-- Model of `tf.where(rv >= v, v, rv)` with a scalar bound. -/
def whereGE (v : ℚ) (t : Tensor) : Tensor :=
  ⟨t.shape, t.data.map fun x => if v ≤ x then v else x⟩

/-- Model of `generator.truncated_normal`: a normal draw, then the assertion
`vmin < vmax` when both bounds are given, then a hard clip at each given
bound (clipping, not resampling). -/
def truncatedNormalT (env : TFEnv) (seed : ℕ × ℕ) (mean std : Tensor)
    (shape : Option (List ℕ)) (vmin vmax : Option ℚ) : Except TFErr Tensor := do
  let rv ← normalT env seed mean std shape
  match vmin, vmax with
  | some a, some b =>
    if a < b then .ok (whereGE b (whereLE a rv)) else .error .invalidRange
  | some a, Option.none => .ok (whereLE a rv)
  | Option.none, some b => .ok (whereGE b rv)
  | Option.none, Option.none => .ok rv

/-- Elementwise TF binary arithmetic with broadcasting (tensor `+`, `-`,
`*`, `/`). -/
def ewBinop (f : ℚ → ℚ → ℚ) (a b : Tensor) : Except TFErr Tensor :=
  match broadcastStaticShape a.shape b.shape with
  | Option.none => .error .shapeMismatch
  | some s =>
    .ok ⟨s, (List.range s.prod).map fun i => f (elemAt a s i) (elemAt b s i)⟩

/-- Elementwise unary TF op (`tf.sqrt`, `tf.math.round`, `tf.exp`, unary
minus, ...). -/
def mapT (f : ℚ → ℚ) (t : Tensor) : Tensor := ⟨t.shape, t.data.map f⟩

/-- Model of `tf.sqrt` on rationals: exact on perfect squares (as float sqrt
is); 0 on negative input, where float sqrt yields NaN — a divergence no claim
exercises. -/
def sqrtQ (q : ℚ) : ℚ :=
  if q ≤ 0 then 0 else (Nat.sqrt q.num.toNat : ℚ) / (Nat.sqrt q.den : ℚ)

/-- Model of `tf.math.round`: round half to even, as TF does. -/
def roundQ (q : ℚ) : ℚ :=
  let f := ⌊q⌋
  let r := q - f
  if r < 1 / 2 then f
  else if 1 / 2 < r then f + 1
  else if f % 2 = 0 then f else f + 1

/-- Model of `tf.cast(·, tf.int32)` on floats: truncation toward zero. -/
def truncQ (q : ℚ) : ℤ := q.num.tdiv (q.den : ℤ)

/-- A regular-grid inverse-distance interpolation table (model of
`interp.NN_LinearGrid`): a dense values tensor of shape
`(ax1_n_points, ..., axD_n_points)` plus per-axis
`(lower, upper, n_points)` binning. -/
structure NNLinearGrid where
  ref_values : Tensor
  binning : List (ℚ × ℚ × ℕ)

/-- Number of axes. -/
def NNLinearGrid.dim (g : NNLinearGrid) : ℕ := g.binning.length

/-- Per-axis lower bounds. -/
def NNLinearGrid.lowers (g : NNLinearGrid) : List ℚ := g.binning.map (·.1)

/-- Per-axis grid spacing `(upper - lower) / (n_points - 1)`. -/
def NNLinearGrid.stepsize (g : NNLinearGrid) : List ℚ :=
  g.binning.map fun ax => (ax.2.1 - ax.1) / ((ax.2.2 : ℚ) - 1)

/-- Per-axis cell count `n_points - 1`. -/
def NNLinearGrid.num_bins (g : NNLinearGrid) : List ℤ :=
  g.binning.map fun ax => (ax.2.2 : ℤ) - 1

/-- Entry `i` of row `j` of the transposed magic index-shift matrix built in
`NN_LinearGrid.__init__`: the row for axis `i` is
`([1]*(2**i)+[0]*(2**i))*(2**(dim-i-1))`, whose column `j` is 1 exactly when
bit `i` of `j` is 0. -/
def magicShift (dim j : ℕ) : List ℤ :=
  (List.range dim).map fun i => if j / 2 ^ i % 2 = 0 then 1 else 0

/-- Model of `NN_LinearGrid._get_nn_indices` for one query point: the
containing-cell base index `clip(int((p - lower) / step), 0, num_bins - 1)`
plus the `j`-th corner offset, per axis. -/
def NNLinearGrid.cornerIdx (g : NNLinearGrid) (p : List ℚ) (j : ℕ) : List ℤ :=
  (List.range g.dim).map fun a =>
    min (max (truncQ ((p.getD a 0 - g.lowers.getD a 0) / g.stepsize.getD a 0)) 0)
      (g.num_bins.getD a 0 - 1) + (magicShift g.dim j).getD a 0

/-- Squared Euclidean distance from the query point to the real-space
position `lowers + stepsize * index` of corner `j`. -/
def NNLinearGrid.cornerDist2 (g : NNLinearGrid) (p : List ℚ) (j : ℕ) : ℚ :=
  ((List.range g.dim).map fun a =>
    (p.getD a 0 -
      (g.lowers.getD a 0 + g.stepsize.getD a 0 * ((g.cornerIdx p j).getD a 0 : ℚ))) ^ 2).sum

/-- Inverse-distance weight of corner `j`:
`1 / clip_by_value(sqrt(dr2), 1e-6, inf)`. -/
def NNLinearGrid.cornerWeight (g : NNLinearGrid) (p : List ℚ) (j : ℕ) : ℚ :=
  1 / max (sqrtQ (g.cornerDist2 p j)) (1 / 1000000)

/-- Model of `tf.gather_nd` into a dense row-major values tensor. -/
def gatherNd (t : Tensor) (idx : List ℤ) : ℚ :=
  t.data.getD (flattenIdx t.shape (idx.map Int.toNat)) 0

/-- Stored value at corner `j` of the cell containing `p`. -/
def NNLinearGrid.cornerVal (g : NNLinearGrid) (p : List ℚ) (j : ℕ) : ℚ :=
  gatherNd g.ref_values (g.cornerIdx p j)

/-- Model of `NN_LinearGrid.interp`: for each query point, the
inverse-distance weighted average of the stored values at the `2^D` corners
of the clipped containing cell. -/
def NNLinearGrid.interp (g : NNLinearGrid) (ps : List (List ℚ)) : List ℚ :=
  ps.map fun p =>
    (((List.range (2 ^ g.dim)).map fun j => g.cornerVal p j * g.cornerWeight p j).sum) /
      (((List.range (2 ^ g.dim)).map fun j => g.cornerWeight p j).sum)

/-- A 1-D irregular-grid linear interpolation table after construction:
reference points and values sorted by point. -/
structure Linear1D where
  ref_points : List ℚ
  ref_values : List ℚ

/-- Model of `Linear1D.__init__`: argsort the reference points and gather
both arrays through that order — a stable sort of the (point, value) pairs
by point. -/
def linear1DInit (points values : List ℚ) : Linear1D :=
  let sorted := List.insertionSort (fun u v : ℚ × ℚ => u.1 ≤ v.1) (points.zip values)
  ⟨sorted.map (·.1), sorted.map (·.2)⟩

/-- Model of `Linear1D.interp` for a batch of query points: count the
reference points `≤` the query to find the bracketing pair of indices, clip
them into range at the ends, linearly interpolate, and fall back to the left
value when the bracket is degenerate (`dx == 0`). -/
def Linear1D.interp (t : Linear1D) (qs : List ℚ) : List ℚ :=
  qs.map fun q =>
    let n := t.ref_points.length
    let ind : ℤ := t.ref_points.countP fun x => decide (0 ≤ q - x)
    let i0 := (min (max (ind - 1) 0) ((n : ℤ) - 1)).toNat
    let i1 := (min (max ind 0) ((n : ℤ) - 1)).toNat
    let x0 := t.ref_points.getD i0 0
    let x1 := t.ref_points.getD i1 0
    let y0 := t.ref_values.getD i0 0
    let y1 := t.ref_values.getD i1 0
    let dx := x1 - x0
    if dx = 0 then y0 else ((x1 - q) * y0 + (q - x0) * y1) / dx

/-- A 1-D regular-grid linear interpolation table (model of
`interp.Linear1D_LinearGrid`). -/
structure Linear1DLinearGrid where
  ref_values : List ℚ
  lower : ℚ
  upper : ℚ
  n_points : ℕ

/-- Modelled from the documented behaviour of
`tfp.math.interp_regular_1d_grid(x, lower, upper, vals,
fill_value='constant_extension')` — an external library call, the whole body
of `Linear1D_LinearGrid.interp`: linear interpolation on the regular grid
over `[lower, upper]`, constant extension outside it. -/
def interpRegular1dGrid (x lower upper : ℚ) (vals : List ℚ) : ℚ :=
  let n := vals.length
  if x ≤ lower then vals.getD 0 0
  else if upper ≤ x then vals.getD (n - 1) 0
  else
    let t := (x - lower) / (upper - lower) * ((n : ℚ) - 1)
    let i := (⌊t⌋).toNat
    let frac := t - (i : ℚ)
    vals.getD i 0 * (1 - frac) + vals.getD (i + 1) 0 * frac

/-- Model of `Linear1D_LinearGrid.interp`. -/
def Linear1DLinearGrid.interp (t : Linear1DLinearGrid) (qs : List ℚ) : List ℚ :=
  qs.map fun q => interpRegular1dGrid q t.lower t.upper t.ref_values

/-- The bound physical parameters of the XENON1T ER mTI pipeline stages,
as read from the parameter store at stage construction. -/
structure Params where
  w : ℚ
  ex_ion_ratio : ℚ
  lindhard : ℚ
  gamma : ℚ
  omega : ℚ
  delta : ℚ
  field : ℚ
  q0 : ℚ
  q1 : ℚ
  q2 : ℚ
  q3 : ℚ
  fano : ℚ

/-- Model of `EnergySpec.simulate`:
`generator.uniform(lower, upper, shape=[sim_size])`. -/
def energySpecSim (env : TFEnv) (seed : ℕ × ℕ) (lower upper : ℚ) (sim_size : ℕ) :
    Except TFErr Tensor :=
  uniformT env seed (scalarT lower) (scalarT upper) (some [sim_size])

/-- Model of `QuenchingFano.simulate`: `Nq_avg = energy / w`, a normal draw
with std `sqrt(Nq_avg * fano)`, rounded, then a binomial draw with
probability `lindhard`. -/
def quenchingFanoSim (env : TFEnv) (s1 s2 : ℕ × ℕ) (p : Params) (energy : Tensor) :
    Except TFErr Tensor := do
  let nqAvg ← ewBinop (· / ·) energy (scalarT p.w)
  let nqVar ← ewBinop (· * ·) nqAvg (scalarT p.fano)
  let nq1 ← normalT env s1 nqAvg (mapT sqrtQ nqVar) Option.none
  let nq := mapT roundQ nq1
  binomialT env s2 nq (scalarT p.lindhard) Option.none

/-- Model of `Ionization.simulate`:
`binomial(Nq, 1 / (1 + ex_ion_ratio))` (the int32 `Nq` is cast back to
float, the identity here). -/
def ionizationSim (env : TFEnv) (s : ℕ × ℕ) (p : Params) (nq : Tensor) :
    Except TFErr Tensor :=
  binomialT env s nq (scalarT (1 / (1 + p.ex_ion_ratio))) Option.none

/-- Model of `mTI.get_mean_recomb`. -/
def mTIMeanRecomb (env : TFEnv) (p : Params) (energy : Tensor) : Except TFErr Tensor := do
  let ni1 ← ewBinop (· / ·) energy (scalarT p.w)
  let ni ← ewBinop (· / ·) ni1 (scalarT (1 + p.ex_ion_ratio))
  let eArg ← ewBinop (· / ·) (mapT Neg.neg energy) (scalarT p.omega)
  let ti1 ← ewBinop (· * ·) ni (scalarT p.gamma)
  let ti2 ← ewBinop (· * ·) ti1 (mapT env.texp eArg)
  let ti3 ← ewBinop (· * ·) ti2 (scalarT (env.fpow p.field (-p.delta)))
  let ti ← ewBinop (· / ·) ti3 (scalarT 4)
  let fd1 ← ewBinop (· - ·) energy (scalarT p.q0)
  let fd2 ← ewBinop (· / ·) (mapT Neg.neg fd1) (scalarT p.q1)
  let fd3 ← ewBinop (· + ·) (scalarT 1) (mapT env.texp fd2)
  let fd ← ewBinop (· / ·) (scalarT 1) fd3
  let lg1 ← ewBinop (· + ·) (scalarT 1) ti
  let m1 ← ewBinop (· / ·) (mapT env.tlog lg1) ti
  let m2 ← ewBinop (· - ·) (scalarT 1) m1
  ewBinop (· * ·) m2 fd

/-- Model of `mTI.get_std_recomb`. -/
def mTIStdRecomb (env : TFEnv) (p : Params) (energy : Tensor) : Except TFErr Tensor := do
  let s1 ← ewBinop (· / ·) (mapT Neg.neg energy) (scalarT p.q3)
  let s2 ← ewBinop (· - ·) (scalarT 1) (mapT env.texp s1)
  ewBinop (· * ·) (scalarT p.q2) s2

/-- Model of `mTI.simulate`:
`truncated_normal(mean_recomb, std_recomb, vmin=0., vmax=1.0)`. -/
def mTISim (env : TFEnv) (seed : ℕ × ℕ) (p : Params) (energy : Tensor) :
    Except TFErr Tensor := do
  let mean ← mTIMeanRecomb env p energy
  let std ← mTIStdRecomb env p energy
  truncatedNormalT env seed mean std Option.none (some 0) (some 1)

/-- Model of `Recomb.simulate`: `Ne = binomial(Ni, 1 - recomb)`,
returning `(Nq - Ne, Ne)`. -/
def recombSim (env : TFEnv) (s : ℕ × ℕ) (nq ni recomb : Tensor) :
    Except TFErr (Tensor × Tensor) := do
  let pr ← ewBinop (· - ·) (scalarT 1) recomb
  let neT ← binomialT env s ni pr Option.none
  let nph ← ewBinop (· - ·) nq neT
  .ok (nph, neT)

/-- Model of `XENON1T_ERmTIModel.simulate`: the five stages in their
hard-coded call order; each sampler call consumes a fresh seed pair, i.e. two
fresh clock reads (`k` counts the clock reads already performed). -/
def xenon1tSimulate (env : TFEnv) (c : Clock) (k : ℕ) (p : Params)
    (lower upper : ℚ) (sim_size : ℕ) : Except TFErr (Tensor × Tensor) := do
  let energy ← energySpecSim env (getSeed c k) lower upper sim_size
  let nq ← quenchingFanoSim env (getSeed c (k + 2)) (getSeed c (k + 4)) p energy
  let ni ← ionizationSim env (getSeed c (k + 6)) p nq
  let recomb ← mTISim env (getSeed c (k + 8)) p energy
  recombSim env (getSeed c (k + 10)) nq ni recomb

/-- The support property of `tf.random.stateless_binomial` (from its
documentation): every draw is a non-negative integer at most the real-valued
trial count, hence 0 when the count is non-positive. -/
def BinomSupport (env : TFEnv) : Prop :=
  ∀ s c p i, 0 ≤ env.statelessBinomial s c p i ∧
    (env.statelessBinomial s c p i : ℚ) ≤ max c 0

/-- A concrete TF kernel environment (all draws 0), used to instantiate the
universally quantified theorems at concrete inputs. -/
def tfEnv0 : TFEnv :=
  ⟨fun _ _ _ _ => 0, fun _ _ _ _ => 0, fun _ _ _ _ => 0,
   fun _ => 0, fun _ => 0, fun _ _ => 0⟩

/-! Theorems. -/

/-- C4 (counterexample): there is no fixed constant by which the second seed
value always exceeds the first. `_get_seed` reads the clock twice, so with
the monotone clock whose i-th read is `i * i`, the call at read position 0
returns the pair (0, 1001) while the call at read position 2 returns
(4, 1009): the offsets 1001 and 1005 differ. -/
theorem c4_seed_offset_counterexample :
    ¬ ∃ C : ℕ, ∀ c : Clock, Clock.Mono c → ∀ k,
      (getSeed c k).2 = (getSeed c k).1 + C := by
  rintro ⟨C, h⟩
  have hm : Clock.Mono fun i => i * i := fun i j hij => Nat.mul_le_mul hij hij
  have h0 := h (fun i => i * i) hm 0
  have h2 := h (fun i => i * i) hm 2
  simp only [getSeed] at h0 h2
  omega

/-- C4 (amended): every sampling call derives a fresh seed pair from two
successive wall-clock reads, with no caller-supplied seed involved: the pair
is (first read, second read + 1000), so under a monotone clock the second
seed is at least the first plus 1000, with equality exactly when the clock
did not advance between the two reads of the call. -/
theorem c4_seed_pair (c : Clock) (k : ℕ) (h : Clock.Mono c) :
    (getSeed c k).1 = c k ∧ (getSeed c k).2 = c (k + 1) + 1000 ∧
    (getSeed c k).1 + 1000 ≤ (getSeed c k).2 ∧
    ((getSeed c k).2 = (getSeed c k).1 + 1000 ↔ c (k + 1) = c k) := by
  have hm := h k (k + 1) (Nat.le_succ k)
  refine ⟨rfl, rfl, ?_, ?_⟩
  · simp only [getSeed]
    omega
  · simp only [getSeed]
    omega

/-- C4 (witness): the amended theorem applied to a constant clock at read
position 3. -/
theorem c4_seed_pair_witness :
    (getSeed (fun _ => 7) 3).2 = (getSeed (fun _ => 7) 3).1 + 1000 :=
  ((c4_seed_pair (fun _ => 7) 3 fun _ _ _ => le_refl 7).2.2.2).mpr rfl

/-- C3 (counterexample): on the default store with the single existing name
"w", `check_parameter_exist(..., return_not_exist=True)` returns the bare
name string as second component — not the (empty) list of absent input
names that the claim prescribes. -/
theorem c3_single_name_counterexample :
    checkParameterExist defaultParameterDict (.str "w") = (true, .str "w") ∧
    ChkRes.str "w" ≠ ChkRes.list (missingNames defaultParameterDict ["w"]) := by
  exact ⟨rfl, fun h => ChkRes.noConfusion h⟩

/-- C3 (amended): for a list argument, `check_parameter_exist` with
`return_not_exist=True` returns (every name exists, the sublist of exactly
the absent names in input order); for a single string argument it returns
(the name exists, the input name itself) — the second component is the bare
name, present or not, rather than a list of absent names. -/
theorem c3_check_parameter_exist (pd : PStore) (ks : List String) (k : String) :
    ((checkParameterExist pd (.list ks)).1 = true ↔
      ∀ n ∈ ks, containsKey pd n = true) ∧
    (checkParameterExist pd (.list ks)).2 = .list (missingNames pd ks) ∧
    List.Sublist (missingNames pd ks) ks ∧
    (∀ n, n ∈ missingNames pd ks ↔ n ∈ ks ∧ containsKey pd n = false) ∧
    checkParameterExist pd (.str k) = (containsKey pd k, .str k) := by
  refine ⟨?_, rfl, List.filter_sublist ks, ?_, rfl⟩
  · simp [checkParameterExist, checkListExist, List.isEmpty_iff, List.filter_eq_nil_iff]
  · intro n
    simp [missingNames, List.mem_filter]

/-- C5: whenever at least one requested name is absent from the store,
`get_parameter`, `set_parameter` and the stage binding
`update_parameter_from_handler` all fail, the store and block are left
unchanged, and the error payload is exactly the list of all missing names in
request order — not just the first; a single missing string name is likewise
reported by name. -/
theorem c5_missing_parameter_errors (pd : PStore) (ks : List String) (vals : PyVal)
    (b : Block) (k : String)
    (hmiss : missingNames pd ks ≠ []) (hk : containsKey pd k = false) :
    getParameter pd (.list ks) = .error (.notFound (.list (missingNames pd ks))) ∧
    setParameter pd (.list ks) vals = (pd, some (.notFound (.list (missingNames pd ks)))) ∧
    (b.param_names = ks →
      updateParameterFromHandler b pd =
        (b, some (.notFoundHandler (.list (missingNames pd ks))))) ∧
    (∀ n, n ∈ missingNames pd ks ↔ n ∈ ks ∧ containsKey pd n = false) ∧
    getParameter pd (.str k) = .error (.notFound (.str k)) ∧
    setParameter pd (.str k) vals = (pd, some (.notFound (.str k))) := by
  have hne : (ks.filter fun n => !(containsKey pd n)).isEmpty = false := by
    rw [List.isEmpty_eq_false]
    exact hmiss
  refine ⟨?_, ?_, ?_, ?_, ?_, ?_⟩
  · simp [getParameter, checkParameterExist, checkListExist, hne, missingNames]
  · simp [setParameter, setParameterList, checkListExist, hne, missingNames]
  · intro hb
    simp [updateParameterFromHandler, checkListExist, hb, hne, missingNames]
  · intro n
    simp [missingNames, List.mem_filter]
  · simp [getParameter, checkParameterExist, hk]
  · simp [setParameter, checkParameterExist, hk]

/-- C5 (witness): the theorem applied to the default store with the request
["w", "nope"], whose only missing name is "nope". -/
theorem c5_missing_parameter_errors_witness :
    getParameter defaultParameterDict (.list ["w", "nope"]) =
      .error (.notFound (.list ["nope"])) := by
  have h := (c5_missing_parameter_errors defaultParameterDict ["w", "nope"] .none
    ⟨["w", "nope"], [], []⟩ "zz" (by decide) (by decide)).1
  have e : missingNames defaultParameterDict ["w", "nope"] = ["nope"] := rfl
  rw [e] at h
  exact h

/-- On a store containing the key, assignment followed by lookup returns the
assigned value. -/
theorem lookup_dictAssign (pd : PStore) (k : String) (v : PyVal)
    (hk : containsKey pd k = true) : lookupVal (dictAssign pd k v) k = some v := by
  rw [dictAssign, if_pos hk]
  revert hk
  induction pd with
  | nil =>
    intro hk
    simp [containsKey] at hk
  | cons e t ih =>
    intro hk
    by_cases he : (e.1 == k) = true
    · simp only [List.map_cons, if_pos he]
      simp [lookupVal, he]
    · have ht : containsKey t k = true := by simpa [containsKey, he] using hk
      have ihh := ih ht
      simp only [List.map_cons, if_neg he]
      simp only [lookupVal] at ihh ⊢
      rw [List.find?_cons_of_neg _ (by simpa using he)]
      exact ihh

/-- C10: for an existing name given as a single string, `set_parameter`
accepts an int or float value (and stores it), and rejects any other value
type with the type assertion, leaving the store unchanged. -/
theorem c10_set_single_requires_number (pd : PStore) (k : String) (v : PyVal)
    (hk : containsKey pd k = true) :
    (isNumeric v = false → setParameter pd (.str k) v = (pd, some .valTypeErr)) ∧
    (isNumeric v = true →
      setParameter pd (.str k) v = (dictAssign pd k v, Option.none) ∧
      lookupVal (dictAssign pd k v) k = some v) := by
  constructor
  · intro hv
    simp [setParameter, checkParameterExist, hk, hv]
  · intro hv
    exact ⟨by simp [setParameter, checkParameterExist, hk, hv],
      lookup_dictAssign pd k v hk⟩

/-- C10 (witness): on the default store, setting "w" to a string fails with
the type assertion and leaves the store unchanged. -/
theorem c10_set_single_requires_number_witness :
    setParameter defaultParameterDict (.str "w") (.str "oops") =
      (defaultParameterDict, some .valTypeErr) :=
  (c10_set_single_requires_number defaultParameterDict "w" (.str "oops") rfl).1 rfl

/-- Broadcasting a rank-1 shape against a scalar gives the rank-1 shape. -/
theorem bcast_vec_scalar (n : ℕ) : broadcastStaticShape [n] [] = some [n] := rfl

/-- Broadcasting a scalar against a rank-1 shape gives the rank-1 shape. -/
theorem bcast_scalar_vec (n : ℕ) : broadcastStaticShape [] [n] = some [n] := rfl

/-- Broadcasting two scalars gives a scalar. -/
theorem bcast_scalar_scalar : broadcastStaticShape [] [] = some [] := rfl

/-- Broadcasting a rank-1 shape against itself gives it back. -/
theorem bcast_vec_vec (n : ℕ) : broadcastStaticShape [n] [n] = some [n] := by
  simp [broadcastStaticShape, bcastRev]

/-- The product of a rank-1 shape. -/
theorem prod_vec (n : ℕ) : List.prod [n] = n := by simp

/-- Within bounds, a rank-1 operand broadcast to itself keeps the index. -/
theorem bcastIdx_vec_vec (n i : ℕ) (h : i < n) : bcastIdx [n] [n] i = i := by
  simp only [bcastIdx, unflattenIdx, flattenIdx, List.prod_nil, Nat.div_one,
    List.length_cons, List.length_nil, Nat.sub_self, List.drop_zero, List.zipWith]
  by_cases h1 : n = 1
  · subst h1; simp; omega
  · simp [h1]

/-- A scalar operand broadcast to a rank-1 result always reads its unique
element. -/
theorem bcastIdx_scalar_vec (n i : ℕ) : bcastIdx [] [n] i = 0 := by
  simp [bcastIdx, unflattenIdx, flattenIdx]

/-- Element access of a scalar operand under rank-1 broadcasting. -/
theorem elemAt_scalar (q : ℚ) (n i : ℕ) : elemAt (scalarT q) [n] i = q := by
  simp [elemAt, scalarT, bcastIdx_scalar_vec]

/-- Element access of a rank-1 operand under rank-1 broadcasting. -/
theorem elemAt_vec (t : Tensor) (n i : ℕ) (ht : t.shape = [n]) (h : i < n) :
    elemAt t [n] i = t.data.getD i 0 := by
  simp [elemAt, ht, bcastIdx_vec_vec n i h]

/-- Element access of a mapped list built from a range. -/
theorem getD_range_map (f : ℕ → ℚ) (n i : ℕ) (h : i < n) :
    ((List.range n).map f).getD i 0 = f i := by
  simp [List.getD_eq_getElem?_getD, List.getElem?_range h]

/-- `ewBinop` on broadcast-compatible operands, explicitly. -/
theorem ewBinop_ok (f : ℚ → ℚ → ℚ) (a b : Tensor) (s : List ℕ)
    (h : broadcastStaticShape a.shape b.shape = some s) :
    ewBinop f a b =
      .ok ⟨s, (List.range s.prod).map fun i => f (elemAt a s i) (elemAt b s i)⟩ := by
  simp [ewBinop, h]

/-- `normalT` on broadcast-compatible operands, explicitly. -/
theorem normalT_ok (env : TFEnv) (seed : ℕ × ℕ) (mean std : Tensor)
    (shape : Option (List ℕ)) (b : List ℕ)
    (h : broadcastStaticShape mean.shape std.shape = some b) :
    normalT env seed mean std shape =
      .ok ⟨outShape shape b, (List.range (outShape shape b).prod).map fun i =>
        env.statelessNormal seed (elemAt mean (outShape shape b) i)
          (elemAt std (outShape shape b) i) i⟩ := by
  simp [normalT, h]

/-- `uniformT` on broadcast-compatible operands, explicitly. -/
theorem uniformT_ok (env : TFEnv) (seed : ℕ × ℕ) (minval maxval : Tensor)
    (shape : Option (List ℕ)) (b : List ℕ)
    (h : broadcastStaticShape minval.shape maxval.shape = some b) :
    uniformT env seed minval maxval shape =
      .ok ⟨outShape shape b, (List.range (outShape shape b).prod).map fun i =>
        env.statelessUniform seed (elemAt minval (outShape shape b) i)
          (elemAt maxval (outShape shape b) i) i⟩ := by
  simp [uniformT, h]

/-- `binomialT` on broadcast-compatible operands, explicitly (the probs
argument is clipped before broadcasting and drawing). -/
theorem binomialT_ok (env : TFEnv) (seed : ℕ × ℕ) (counts probs : Tensor)
    (shape : Option (List ℕ)) (b : List ℕ)
    (h : broadcastStaticShape counts.shape probs.shape = some b) :
    binomialT env seed counts probs shape =
      .ok ⟨outShape shape b, (List.range (outShape shape b).prod).map fun i =>
        ((env.statelessBinomial seed (elemAt counts (outShape shape b) i)
          (elemAt (clipT 0 1 probs) (outShape shape b) i) i : ℤ) : ℚ)⟩ := by
  have hs : (clipT 0 1 probs).shape = probs.shape := rfl
  simp [binomialT, hs, h]

/-- C6: when mean and std broadcast to shape `b`, `normal` returns a tensor
of shape `b` (with matching element count) when `shape` is `None`, and of
shape `S ++ b` when an explicit leading shape `S` is given. -/
theorem c6_normal_output_shape (env : TFEnv) (seed : ℕ × ℕ) (mean std : Tensor)
    (b : List ℕ) (h : broadcastStaticShape mean.shape std.shape = some b) :
    (∃ t, normalT env seed mean std Option.none = .ok t ∧ t.shape = b ∧
      t.data.length = b.prod) ∧
    ∀ s : List ℕ, ∃ t, normalT env seed mean std (some s) = .ok t ∧
      t.shape = s ++ b ∧ t.data.length = (s ++ b).prod := by
  constructor
  · exact ⟨_, normalT_ok env seed mean std Option.none b h, rfl, by simp [outShape]⟩
  · intro s
    exact ⟨_, normalT_ok env seed mean std (some s) b h, rfl, by simp [outShape]⟩

/-- C6 (witness): shapes [2,1] and [3] broadcast to [2,3], and an explicit
leading shape [5] yields [5,2,3]. -/
theorem c6_normal_output_shape_witness :
    (∃ t, normalT tfEnv0 (0, 0) ⟨[2, 1], [0, 0]⟩ ⟨[3], [0, 0, 0]⟩ Option.none = .ok t ∧
      t.shape = [2, 3] ∧ t.data.length = [2, 3].prod) ∧
    ∃ t, normalT tfEnv0 (0, 0) ⟨[2, 1], [0, 0]⟩ ⟨[3], [0, 0, 0]⟩ (some [5]) = .ok t ∧
      t.shape = [5] ++ [2, 3] ∧ t.data.length = ([5] ++ [2, 3]).prod := by
  have h := c6_normal_output_shape tfEnv0 (0, 0) ⟨[2, 1], [0, 0]⟩ ⟨[3], [0, 0, 0]⟩ [2, 3]
    (by decide)
  exact ⟨h.1, h.2 [5]⟩

/-- Hard clipping at both bounds lands in [a, b]. -/
theorem clamp_bounds (a b y : ℚ) (hab : a ≤ b) :
    a ≤ (if b ≤ (if y ≤ a then a else y) then b else if y ≤ a then a else y) ∧
    (if b ≤ (if y ≤ a then a else y) then b else if y ≤ a then a else y) ≤ b := by
  split_ifs with h1 h2 h3 <;> constructor <;> linarith

/-- C7: with both bounds given and `a < b`, every element of
`truncated_normal` lies in the closed interval [a, b]; with both bounds
given and `b ≤ a`, the call fails with the invalid-range assertion (after
the normal draw, exactly as in the code). -/
theorem c7_truncated_normal_bounds (env : TFEnv) (seed : ℕ × ℕ) (mean std : Tensor)
    (shape : Option (List ℕ)) (a b : ℚ) (bs : List ℕ)
    (hbc : broadcastStaticShape mean.shape std.shape = some bs) :
    (a < b → ∃ t, truncatedNormalT env seed mean std shape (some a) (some b) = .ok t ∧
      ∀ x ∈ t.data, a ≤ x ∧ x ≤ b) ∧
    (b ≤ a →
      truncatedNormalT env seed mean std shape (some a) (some b) = .error .invalidRange) := by
  have hn := normalT_ok env seed mean std shape bs hbc
  constructor
  · intro hab
    refine ⟨whereGE b (whereLE a ⟨outShape shape bs,
      (List.range (outShape shape bs).prod).map fun i =>
        env.statelessNormal seed (elemAt mean (outShape shape bs) i)
          (elemAt std (outShape shape bs) i) i⟩), ?_, ?_⟩
    · simp [truncatedNormalT, hn, hab, Bind.bind, Except.bind]
    · intro x hx
      simp only [whereGE, whereLE, List.map_map, List.mem_map] at hx
      obtain ⟨y, _, rfl⟩ := hx
      exact clamp_bounds a b _ (le_of_lt hab)
  · intro hba
    have hnl : ¬ a < b := not_lt.mpr hba
    simp [truncatedNormalT, hn, hnl, Bind.bind, Except.bind]

/-- C7 (witness): with bounds 0 < 1 every drawn element lies in [0, 1], at
the concrete scalar mean 5 and std 1. -/
theorem c7_truncated_normal_bounds_witness :
    (∃ t, truncatedNormalT tfEnv0 (0, 0) (scalarT 5) (scalarT 1) Option.none
      (some 0) (some 1) = .ok t ∧ ∀ x ∈ t.data, (0 : ℚ) ≤ x ∧ x ≤ 1) ∧
    truncatedNormalT tfEnv0 (0, 0) (scalarT 1) (scalarT 1) Option.none
      (some 1) (some 0) = .error .invalidRange := by
  constructor
  · exact (c7_truncated_normal_bounds tfEnv0 (0, 0) (scalarT 5) (scalarT 1)
      Option.none 0 1 [] rfl).1 (by norm_num)
  · exact (c7_truncated_normal_bounds tfEnv0 (0, 0) (scalarT 1) (scalarT 1)
      Option.none 1 0 [] rfl).2 (by norm_num)

/-- Clipping into [0, 1] is idempotent. -/
theorem clipT_idem (t : Tensor) : clipT 0 1 (clipT 0 1 t) = clipT 0 1 t := by
  simp only [clipT, List.map_map, Tensor.mk.injEq, true_and]
  apply List.map_congr_left
  intro x _
  have h0 : (0 : ℚ) ≤ min (max x 0) 1 := le_min (le_max_right x 0) zero_le_one
  have h1 : min (max x 0) 1 ≤ 1 := min_le_right _ _
  simp [Function.comp, max_eq_left h0, min_eq_left h1]

/-- C9: the binomial sampler behaves exactly as if `probs` had first been
clamped elementwise into [0, 1] (so out-of-range probabilities are silently
accepted), and whether the call succeeds depends only on the shapes of
`counts` and `probs`, never on the probability values. -/
theorem c9_binomial_prob_clamp (env : TFEnv) (seed : ℕ × ℕ) (counts probs : Tensor)
    (shape : Option (List ℕ)) :
    binomialT env seed counts probs shape =
      binomialT env seed counts (clipT 0 1 probs) shape ∧
    ∀ d2 : List ℚ,
      ((∃ t, binomialT env seed counts ⟨probs.shape, d2⟩ shape = .ok t) ↔
        ∃ t, binomialT env seed counts probs shape = .ok t) := by
  constructor
  · simp only [binomialT, clipT_idem]
  · intro d2
    cases h : broadcastStaticShape counts.shape probs.shape with
    | none =>
      constructor
      · rintro ⟨t, ht⟩
        simp [binomialT, clipT, h] at ht
      · rintro ⟨t, ht⟩
        simp [binomialT, clipT, h] at ht
    | some b =>
      constructor
      · intro _
        exact ⟨_, binomialT_ok env seed counts probs shape b h⟩
      · intro _
        exact ⟨_, binomialT_ok env seed counts ⟨probs.shape, d2⟩ shape b h⟩

/-- Every corner weight is strictly positive (the distance is floored at
1e-6 before inversion). -/
theorem cornerWeight_pos (g : NNLinearGrid) (p : List ℚ) (j : ℕ) :
    0 < g.cornerWeight p j := by
  unfold NNLinearGrid.cornerWeight
  have h : (0 : ℚ) < max (sqrtQ (g.cornerDist2 p j)) (1 / 1000000) :=
    lt_of_lt_of_le (by norm_num) (le_max_right _ _)
  exact one_div_pos.mpr h

/-- C2 (amended): the regular-grid interpolator computes the inverse-distance
weighted average over the `2^D` corners of the clipped containing cell, the
query's own vertex merely receiving the floored weight 1e6; hence a query —
in particular one placed exactly at a grid vertex — reproduces a stored value
exactly when all corner values of that cell equal it, while with unequal
corner values the result is only a nearby weighted average (see the
counterexample). -/
theorem c2_nn_grid_vertex (g : NNLinearGrid) (p : List ℚ) (v : ℚ)
    (hv : ∀ j, j < 2 ^ g.dim → g.cornerVal p j = v) :
    g.interp [p] = [v] := by
  have hs : 0 < ((List.range (2 ^ g.dim)).map fun j => g.cornerWeight p j).sum := by
    apply List.sum_pos
    · intro x hx
      obtain ⟨j, _, rfl⟩ := List.mem_map.mp hx
      exact cornerWeight_pos g p j
    · intro hnil
      have hlen := congrArg List.length hnil
      simp at hlen
  unfold NNLinearGrid.interp
  simp only [List.map_cons, List.map_nil, List.cons.injEq, and_true]
  have hnum : ((List.range (2 ^ g.dim)).map fun j => g.cornerVal p j * g.cornerWeight p j) =
      (List.range (2 ^ g.dim)).map fun j => v * g.cornerWeight p j := by
    apply List.map_congr_left
    intro j hj
    rw [hv j (List.mem_range.mp hj)]
  rw [hnum, List.sum_map_mul_left]
  exact mul_div_cancel_right₀ v (ne_of_gt hs)

/-- The concrete ranges used when evaluating 1-D grid tables. -/
theorem range_one_eq : List.range 1 = [0] := rfl

/-- The concrete two-element range. -/
theorem range_two_eq : List.range 2 = [0, 1] := rfl

/-- C2 (witness): on the 1-D two-point grid whose cell corners both store 5,
querying at the vertex 0 returns 5 exactly. -/
theorem c2_nn_grid_vertex_witness :
    NNLinearGrid.interp ⟨⟨[2], [5, 5]⟩, [(0, 1, 2)]⟩ [[0]] = [5] := by
  apply c2_nn_grid_vertex ⟨⟨[2], [5, 5]⟩, [(0, 1, 2)]⟩ [0] 5
  have hi0 : NNLinearGrid.cornerIdx ⟨⟨[2], [5, 5]⟩, [(0, 1, 2)]⟩ [0] 0 = [1] := by
    norm_num [NNLinearGrid.cornerIdx, NNLinearGrid.dim, NNLinearGrid.lowers,
      NNLinearGrid.stepsize, NNLinearGrid.num_bins, magicShift, truncQ, range_one_eq]
  have hi1 : NNLinearGrid.cornerIdx ⟨⟨[2], [5, 5]⟩, [(0, 1, 2)]⟩ [0] 1 = [0] := by
    norm_num [NNLinearGrid.cornerIdx, NNLinearGrid.dim, NNLinearGrid.lowers,
      NNLinearGrid.stepsize, NNLinearGrid.num_bins, magicShift, truncQ, range_one_eq]
  intro j hj
  have hj2 : j < 2 := by simpa [NNLinearGrid.dim] using hj
  interval_cases j
  · unfold NNLinearGrid.cornerVal
    rw [hi0]
    norm_num [gatherNd, flattenIdx]
  · unfold NNLinearGrid.cornerVal
    rw [hi1]
    norm_num [gatherNd, flattenIdx]

/-- C2 (counterexample): on the 1-D grid over [0, 1] with 2 points and stored
values 0 and 1, querying exactly at the grid vertex 0 (stored value 0)
returns the weighted average 1/1000001, not the stored value. -/
theorem c2_nn_grid_vertex_counterexample :
    NNLinearGrid.interp ⟨⟨[2], [0, 1]⟩, [(0, 1, 2)]⟩ [[0]] = [1 / 1000001] ∧
    gatherNd (Tensor.mk [2] [0, 1]) [0] = 0 ∧
    NNLinearGrid.interp ⟨⟨[2], [0, 1]⟩, [(0, 1, 2)]⟩ [[0]] ≠
      [gatherNd (Tensor.mk [2] [0, 1]) [0]] := by
  have hi0 : NNLinearGrid.cornerIdx ⟨⟨[2], [0, 1]⟩, [(0, 1, 2)]⟩ [0] 0 = [1] := by
    norm_num [NNLinearGrid.cornerIdx, NNLinearGrid.dim, NNLinearGrid.lowers,
      NNLinearGrid.stepsize, NNLinearGrid.num_bins, magicShift, truncQ, range_one_eq]
  have hi1 : NNLinearGrid.cornerIdx ⟨⟨[2], [0, 1]⟩, [(0, 1, 2)]⟩ [0] 1 = [0] := by
    norm_num [NNLinearGrid.cornerIdx, NNLinearGrid.dim, NNLinearGrid.lowers,
      NNLinearGrid.stepsize, NNLinearGrid.num_bins, magicShift, truncQ, range_one_eq]
  have hd0 : NNLinearGrid.cornerDist2 ⟨⟨[2], [0, 1]⟩, [(0, 1, 2)]⟩ [0] 0 = 1 := by
    norm_num [NNLinearGrid.cornerDist2, NNLinearGrid.dim, NNLinearGrid.lowers,
      NNLinearGrid.stepsize, hi0, range_one_eq]
  have hd1 : NNLinearGrid.cornerDist2 ⟨⟨[2], [0, 1]⟩, [(0, 1, 2)]⟩ [0] 1 = 0 := by
    norm_num [NNLinearGrid.cornerDist2, NNLinearGrid.dim, NNLinearGrid.lowers,
      NNLinearGrid.stepsize, hi1, range_one_eq]
  have hw0 : NNLinearGrid.cornerWeight ⟨⟨[2], [0, 1]⟩, [(0, 1, 2)]⟩ [0] 0 = 1 := by
    norm_num [NNLinearGrid.cornerWeight, hd0, sqrtQ]
  have hw1 : NNLinearGrid.cornerWeight ⟨⟨[2], [0, 1]⟩, [(0, 1, 2)]⟩ [0] 1 = 1000000 := by
    norm_num [NNLinearGrid.cornerWeight, hd1, sqrtQ]
  have hv0 : NNLinearGrid.cornerVal ⟨⟨[2], [0, 1]⟩, [(0, 1, 2)]⟩ [0] 0 = 1 := by
    unfold NNLinearGrid.cornerVal
    rw [hi0]
    norm_num [gatherNd, flattenIdx]
  have hv1 : NNLinearGrid.cornerVal ⟨⟨[2], [0, 1]⟩, [(0, 1, 2)]⟩ [0] 1 = 0 := by
    unfold NNLinearGrid.cornerVal
    rw [hi1]
    norm_num [gatherNd, flattenIdx]
  have hmain : NNLinearGrid.interp ⟨⟨[2], [0, 1]⟩, [(0, 1, 2)]⟩ [[0]] = [1 / 1000001] := by
    norm_num [NNLinearGrid.interp, NNLinearGrid.dim, range_two_eq, hw0, hw1, hv0, hv1]
  have hstored : gatherNd (Tensor.mk [2] [0, 1]) [0] = 0 := by
    norm_num [gatherNd, flattenIdx]
  refine ⟨hmain, hstored, ?_⟩
  rw [hmain, hstored]
  intro h
  have h1 := List.head_eq_of_cons_eq h
  norm_num at h1

/-- If the query lies strictly below every reference point, no reference
point counts as `≤` it. -/
theorem countP_zero_of_forall_lt (l : List ℚ) (q : ℚ) (hq : ∀ x ∈ l, q < x) :
    (l.countP fun x => decide (0 ≤ q - x)) = 0 := by
  rw [List.countP_eq_zero]
  intro a ha
  simp only [decide_eq_true_eq]
  intro hc
  linarith [hq a ha]

/-- If every reference point is `≤` the query, all of them count. -/
theorem countP_length_of_forall_le (l : List ℚ) (q : ℚ) (hq : ∀ x ∈ l, x ≤ q) :
    (l.countP fun x => decide (0 ≤ q - x)) = l.length := by
  rw [List.countP_eq_length]
  intro a ha
  simp only [decide_eq_true_eq]
  linarith [hq a ha]

/-- In a strictly increasing reference list, exactly `j + 1` points are `≤`
the `j`-th point. -/
theorem countP_sorted_at (l : List ℚ) (hl : l.Pairwise (· < ·)) :
    ∀ j, j < l.length → (l.countP fun x => decide (0 ≤ l.getD j 0 - x)) = j + 1 := by
  induction l with
  | nil =>
    intro j hj
    simp at hj
  | cons a t ih =>
    intro j hj
    obtain ⟨ha, ht⟩ := List.pairwise_cons.mp hl
    cases j with
    | zero =>
      rw [List.countP_cons]
      simp only [List.getD_cons_zero]
      rw [countP_zero_of_forall_lt t a ha]
      norm_num
    | succ j =>
      rw [List.countP_cons]
      simp only [List.getD_cons_succ]
      have hjt : j < t.length := by simpa using hj
      have hmem : t.getD j 0 ∈ t := by
        rw [List.getD_eq_getElem t 0 hjt]
        exact List.getElem_mem hjt
      have hlt : a < t.getD j 0 := ha _ hmem
      have hp : decide (0 ≤ t.getD j 0 - a) = true := by
        simp only [decide_eq_true_eq]
        linarith
      rw [ih ht j hjt, if_pos hp]

/-- `Linear1D.interp` at the `j`-th reference point of a sorted table with
distinct points returns the `j`-th reference value. -/
theorem linear1D_exact_sorted (t : Linear1D) (hs : t.ref_points.Pairwise (· < ·))
    (j : ℕ) (hj : j < t.ref_points.length) :
    t.interp [t.ref_points.getD j 0] = [t.ref_values.getD j 0] := by
  have hc := countP_sorted_at t.ref_points hs j hj
  unfold Linear1D.interp
  simp only [List.map_cons, List.map_nil, List.cons.injEq, and_true]
  rw [hc]
  rcases Nat.lt_or_ge (j + 1) t.ref_points.length with hlt | hge
  · have e0 : (min (max (((j : ℤ) + 1) - 1) 0) ((t.ref_points.length : ℤ) - 1)).toNat = j := by
      omega
    have e1 : (min (max ((j : ℤ) + 1) 0) ((t.ref_points.length : ℤ) - 1)).toNat = j + 1 := by
      omega
    push_cast
    rw [e0, e1]
    have hmono : t.ref_points.getD j 0 < t.ref_points.getD (j + 1) 0 := by
      rw [List.getD_eq_getElem t.ref_points 0 hj, List.getD_eq_getElem t.ref_points 0 hlt]
      exact List.pairwise_iff_getElem.mp hs j (j + 1) hj hlt (Nat.lt_succ_self j)
    have hdx : t.ref_points.getD (j + 1) 0 - t.ref_points.getD j 0 ≠ 0 := by linarith
    rw [if_neg hdx, sub_self, zero_mul, add_zero]
    exact mul_div_cancel_left₀ _ hdx
  · have hj1 : j + 1 = t.ref_points.length := by omega
    have e0 : (min (max (((j : ℤ) + 1) - 1) 0) ((t.ref_points.length : ℤ) - 1)).toNat = j := by
      omega
    have e1 : (min (max ((j : ℤ) + 1) 0) ((t.ref_points.length : ℤ) - 1)).toNat = j := by
      omega
    push_cast
    rw [e0, e1]
    simp

/-- `Linear1D.interp` strictly below every reference point returns the first
(sorted) reference value. -/
theorem linear1D_below_sorted (t : Linear1D) (q : ℚ)
    (hq : ∀ x ∈ t.ref_points, q < x) :
    t.interp [q] = [t.ref_values.getD 0 0] := by
  have hc := countP_zero_of_forall_lt t.ref_points q hq
  unfold Linear1D.interp
  simp only [List.map_cons, List.map_nil, List.cons.injEq, and_true]
  rw [hc]
  have e0 : (min (max (((0 : ℕ) : ℤ) - 1) 0) ((t.ref_points.length : ℤ) - 1)).toNat = 0 := by
    omega
  have e1 : (min (max ((0 : ℕ) : ℤ) 0) ((t.ref_points.length : ℤ) - 1)).toNat = 0 := by
    omega
  rw [e0, e1]
  simp

/-- `Linear1D.interp` strictly above every reference point returns the last
(sorted) reference value. -/
theorem linear1D_above_sorted (t : Linear1D) (q : ℚ) (hn : 0 < t.ref_points.length)
    (hq : ∀ x ∈ t.ref_points, x < q) :
    t.interp [q] = [t.ref_values.getD (t.ref_points.length - 1) 0] := by
  have hc := countP_length_of_forall_le t.ref_points q fun x hx => le_of_lt (hq x hx)
  unfold Linear1D.interp
  simp only [List.map_cons, List.map_nil, List.cons.injEq, and_true]
  rw [hc]
  have e0 : (min (max ((t.ref_points.length : ℤ) - 1) 0)
      ((t.ref_points.length : ℤ) - 1)).toNat = t.ref_points.length - 1 := by
    omega
  have e1 : (min (max ((t.ref_points.length : ℤ)) 0)
      ((t.ref_points.length : ℤ) - 1)).toNat = t.ref_points.length - 1 := by
    omega
  rw [e0, e1]
  simp

/-- Construction facts for `Linear1D`: with pairwise-distinct points and
matching lengths, the constructor produces a strictly increasing point list
that is a permutation of the input points, and every input (point, value)
pair is stored at some index. -/
theorem linear1DInit_props (points values : List ℚ) (hnd : points.Nodup)
    (hlen : values.length = points.length) :
    (linear1DInit points values).ref_points.Pairwise (· < ·) ∧
    (linear1DInit points values).ref_points.Perm points ∧
    (∀ x v, (x, v) ∈ points.zip values →
      ∃ j, j < (linear1DInit points values).ref_points.length ∧
        (linear1DInit points values).ref_points.getD j 0 = x ∧
        (linear1DInit points values).ref_values.getD j 0 = v) := by
  haveI hTot : IsTotal (ℚ × ℚ) (fun u v : ℚ × ℚ => u.1 ≤ v.1) :=
    ⟨fun a b => le_total a.1 b.1⟩
  haveI hTrans : IsTrans (ℚ × ℚ) (fun u v : ℚ × ℚ => u.1 ≤ v.1) :=
    ⟨fun _ _ _ hab hbc => le_trans hab hbc⟩
  have hperm : List.Perm
      (List.insertionSort (fun u v : ℚ × ℚ => u.1 ≤ v.1) (points.zip values))
      (points.zip values) :=
    List.perm_insertionSort _ _
  have hsorted : List.Pairwise (fun u v : ℚ × ℚ => u.1 ≤ v.1)
      (List.insertionSort (fun u v : ℚ × ℚ => u.1 ≤ v.1) (points.zip values)) :=
    List.sorted_insertionSort _ _
  have hfst : (points.zip values).map Prod.fst = points :=
    List.map_fst_zip points values (le_of_eq hlen.symm)
  have hpperm : (linear1DInit points values).ref_points.Perm points := by
    have h := hperm.map Prod.fst
    rw [hfst] at h
    exact h
  refine ⟨?_, hpperm, ?_⟩
  · have hle : (linear1DInit points values).ref_points.Pairwise (· ≤ ·) :=
      hsorted.map _ fun _ _ h => h
    have hndp : (linear1DInit points values).ref_points.Nodup :=
      (hpperm.nodup_iff).mpr hnd
    exact (hle.and hndp).imp fun h => lt_of_le_of_ne h.1 h.2
  · intro x v hxv
    have hmem : (x, v) ∈ List.insertionSort (fun u v : ℚ × ℚ => u.1 ≤ v.1)
        (points.zip values) := hperm.mem_iff.mpr hxv
    obtain ⟨j, hj, hget⟩ := List.mem_iff_getElem.mp hmem
    refine ⟨j, ?_, ?_, ?_⟩
    · simpa [linear1DInit] using hj
    · have hjm : j < ((List.insertionSort (fun u v : ℚ × ℚ => u.1 ≤ v.1)
          (points.zip values)).map Prod.fst).length := by simpa using hj
      show ((List.insertionSort (fun u v : ℚ × ℚ => u.1 ≤ v.1)
          (points.zip values)).map (·.1)).getD j 0 = x
      rw [List.getD_eq_getElem _ _ (by simpa using hj)]
      simp only [List.getElem_map]
      rw [hget]
    · rw [show (linear1DInit points values).ref_values =
          (List.insertionSort (fun u v : ℚ × ℚ => u.1 ≤ v.1)
            (points.zip values)).map (·.2) from rfl]
      rw [List.getD_eq_getElem _ _ (by simpa using hj)]
      simp only [List.getElem_map]
      rw [hget]

/-- The modelled `interp_regular_1d_grid` reproduces the stored value at
every grid node. -/
theorem interpRegular_node (vals : List ℚ) (l u : ℚ) (j : ℕ)
    (hlu : l < u) (h2 : 2 ≤ vals.length) (hj : j < vals.length) :
    interpRegular1dGrid (l + (j : ℚ) * ((u - l) / ((vals.length : ℚ) - 1))) l u vals =
      vals.getD j 0 := by
  have hn2 : (2 : ℚ) ≤ (vals.length : ℚ) := by exact_mod_cast h2
  have hne : ((vals.length : ℚ) - 1) ≠ 0 := by linarith
  have hul : u - l ≠ 0 := sub_ne_zero.mpr (ne_of_gt hlu)
  have hs : 0 < (u - l) / ((vals.length : ℚ) - 1) :=
    div_pos (by linarith) (by linarith)
  rcases Nat.eq_zero_or_pos j with rfl | hj0
  · simp [interpRegular1dGrid]
  rcases Nat.lt_or_ge j (vals.length - 1) with hjlt | hjge
  · have hxl : l < l + (j : ℚ) * ((u - l) / ((vals.length : ℚ) - 1)) := by
      have : 0 < (j : ℚ) * ((u - l) / ((vals.length : ℚ) - 1)) :=
        mul_pos (by exact_mod_cast hj0) hs
      linarith
    have hjc : (j : ℚ) < (vals.length : ℚ) - 1 := by
      have : (j : ℕ) < vals.length - 1 := hjlt
      have h1 : ((j : ℕ) : ℚ) < ((vals.length - 1 : ℕ) : ℚ) := by exact_mod_cast this
      have h2c : ((vals.length - 1 : ℕ) : ℚ) = (vals.length : ℚ) - 1 := by
        have : 1 ≤ vals.length := by omega
        push_cast [Nat.cast_sub this]
        ring
      linarith [h2c ▸ h1]
    have hxu : l + (j : ℚ) * ((u - l) / ((vals.length : ℚ) - 1)) < u := by
      have hlt : (j : ℚ) * ((u - l) / ((vals.length : ℚ) - 1)) <
          ((vals.length : ℚ) - 1) * ((u - l) / ((vals.length : ℚ) - 1)) :=
        mul_lt_mul_of_pos_right hjc hs
      have hcancel : ((vals.length : ℚ) - 1) * ((u - l) / ((vals.length : ℚ) - 1)) = u - l := by
        field_simp
      linarith [hcancel ▸ hlt]
    have hteq : (l + (j : ℚ) * ((u - l) / ((vals.length : ℚ) - 1)) - l) / (u - l) *
        ((vals.length : ℚ) - 1) = (j : ℚ) := by
      have hcl : l + (j : ℚ) * ((u - l) / ((vals.length : ℚ) - 1)) - l =
          (j : ℚ) * ((u - l) / ((vals.length : ℚ) - 1)) := by ring
      rw [hcl]
      field_simp
      ring
    simp only [interpRegular1dGrid]
    rw [if_neg (not_le.mpr hxl), if_neg (not_le.mpr hxu), hteq]
    rw [Int.floor_natCast, Int.toNat_natCast]
    simp
  · have hj1 : j = vals.length - 1 := by omega
    have hcast : (j : ℚ) = (vals.length : ℚ) - 1 := by
      rw [hj1]
      have h1 : 1 ≤ vals.length := by omega
      push_cast [Nat.cast_sub h1]
      ring
    have hx : l + (j : ℚ) * ((u - l) / ((vals.length : ℚ) - 1)) = u := by
      rw [hcast]
      field_simp
    simp only [interpRegular1dGrid]
    rw [hx, if_neg (not_le.mpr hlu), if_pos (le_refl u), hj1]

/-- C8: a `Linear1D` table built from pairwise-distinct points reproduces
every stored (point, value) pair exactly, and clamps queries outside the
domain to the value at the nearest boundary point; a `Linear1D_LinearGrid`
table reproduces every grid-node value exactly and clamps queries outside
`[lower, upper]` to the corresponding end value — never extrapolating. -/
theorem c8_linear_tables (points values : List ℚ) (hnd : points.Nodup)
    (hlen : values.length = points.length)
    (gvals : List ℚ) (glower gupper : ℚ) (gn : ℕ)
    (hgn : gvals.length = gn) (hgl : glower < gupper) (hg2 : 2 ≤ gn) :
    (∀ x v, (x, v) ∈ points.zip values →
      (linear1DInit points values).interp [x] = [v]) ∧
    (∀ q x0 v0, (x0, v0) ∈ points.zip values → (∀ x ∈ points, x0 ≤ x) → q < x0 →
      (linear1DInit points values).interp [q] = [v0]) ∧
    (∀ q x1 v1, (x1, v1) ∈ points.zip values → (∀ x ∈ points, x ≤ x1) → x1 < q →
      (linear1DInit points values).interp [q] = [v1]) ∧
    (∀ j, j < gn →
      (Linear1DLinearGrid.mk gvals glower gupper gn).interp
        [glower + (j : ℚ) * ((gupper - glower) / ((gn : ℚ) - 1))] = [gvals.getD j 0]) ∧
    (∀ q, q ≤ glower →
      (Linear1DLinearGrid.mk gvals glower gupper gn).interp [q] = [gvals.getD 0 0]) ∧
    (∀ q, gupper ≤ q →
      (Linear1DLinearGrid.mk gvals glower gupper gn).interp [q] =
        [gvals.getD (gn - 1) 0]) := by
  obtain ⟨hsorted, hpperm, hstore⟩ := linear1DInit_props points values hnd hlen
  subst hgn
  refine ⟨?_, ?_, ?_, ?_, ?_, ?_⟩
  · intro x v hxv
    obtain ⟨j, hjl, hjx, hjv⟩ := hstore x v hxv
    have h := linear1D_exact_sorted (linear1DInit points values) hsorted j hjl
    rw [hjx, hjv] at h
    exact h
  · intro q x0 v0 hmem hmin hq
    obtain ⟨j, hjl, hjx, hjv⟩ := hstore x0 v0 hmem
    have hj0 : j = 0 := by
      by_contra hne
      have h0l : 0 < (linear1DInit points values).ref_points.length := by omega
      have hlt : (linear1DInit points values).ref_points.getD 0 0 <
          (linear1DInit points values).ref_points.getD j 0 := by
        rw [List.getD_eq_getElem _ _ h0l, List.getD_eq_getElem _ _ hjl]
        exact List.pairwise_iff_getElem.mp hsorted 0 j h0l hjl (by omega)
      have hmem0 : (linear1DInit points values).ref_points.getD 0 0 ∈ points := by
        apply hpperm.mem_iff.mp
        rw [List.getD_eq_getElem _ _ h0l]
        exact List.getElem_mem h0l
      have := hmin _ hmem0
      rw [hjx] at hlt
      linarith
    have hall : ∀ x ∈ (linear1DInit points values).ref_points, q < x := by
      intro x hx
      have hxp : x ∈ points := hpperm.mem_iff.mp hx
      linarith [hmin x hxp]
    have h := linear1D_below_sorted (linear1DInit points values) q hall
    rw [hj0] at hjv
    rw [hjv] at h
    exact h
  · intro q x1 v1 hmem hmax hq
    obtain ⟨j, hjl, hjx, hjv⟩ := hstore x1 v1 hmem
    have hj1 : j = (linear1DInit points values).ref_points.length - 1 := by
      by_contra hne
      have hl1 : (linear1DInit points values).ref_points.length - 1 <
          (linear1DInit points values).ref_points.length := by omega
      have hlt : (linear1DInit points values).ref_points.getD j 0 <
          (linear1DInit points values).ref_points.getD
            ((linear1DInit points values).ref_points.length - 1) 0 := by
        rw [List.getD_eq_getElem _ _ hjl, List.getD_eq_getElem _ _ hl1]
        exact List.pairwise_iff_getElem.mp hsorted j _ hjl hl1 (by omega)
      have hmem1 : (linear1DInit points values).ref_points.getD
          ((linear1DInit points values).ref_points.length - 1) 0 ∈ points := by
        apply hpperm.mem_iff.mp
        rw [List.getD_eq_getElem _ _ hl1]
        exact List.getElem_mem hl1
      have := hmax _ hmem1
      rw [hjx] at hlt
      linarith
    have hall : ∀ x ∈ (linear1DInit points values).ref_points, x < q := by
      intro x hx
      have hxp : x ∈ points := hpperm.mem_iff.mp hx
      linarith [hmax x hxp]
    have h := linear1D_above_sorted (linear1DInit points values) q (by omega) hall
    rw [hj1] at hjv
    rw [hjv] at h
    exact h
  · intro j hj
    show [interpRegular1dGrid (glower + (j : ℚ) *
      ((gupper - glower) / ((gvals.length : ℚ) - 1))) glower gupper gvals] =
      [gvals.getD j 0]
    rw [interpRegular_node gvals glower gupper j hgl hg2 hj]
  · intro q hq
    simp [Linear1DLinearGrid.interp, interpRegular1dGrid, hq]
  · intro q hq
    have hql : ¬ q ≤ glower := by linarith
    simp [Linear1DLinearGrid.interp, interpRegular1dGrid, hql, hq]

/-- C8 (witness): the theorem applied to the concrete table with points
[1, 0, 2, 3] and values [10, 20, 30, 40], and the 3-point grid [1, 5, 9]
over [0, 2]: exactness at the point 2 and at node 1, and clamping below and
above both domains. -/
theorem c8_linear_tables_witness :
    (linear1DInit [1, 0, 2, 3] [10, 20, 30, 40]).interp [2] = [30] ∧
    (linear1DInit [1, 0, 2, 3] [10, 20, 30, 40]).interp [-5] = [20] ∧
    (linear1DInit [1, 0, 2, 3] [10, 20, 30, 40]).interp [7] = [40] ∧
    (Linear1DLinearGrid.mk [1, 5, 9] 0 2 3).interp [0 + (1 : ℚ) * ((2 - 0) / ((3 : ℚ) - 1))] =
      [5] ∧
    (Linear1DLinearGrid.mk [1, 5, 9] 0 2 3).interp [-1] = [1] ∧
    (Linear1DLinearGrid.mk [1, 5, 9] 0 2 3).interp [3] = [9] := by
  have h := c8_linear_tables [1, 0, 2, 3] [10, 20, 30, 40] (by norm_num)
    (by norm_num) [1, 5, 9] 0 2 3 (by norm_num) (by norm_num) (by norm_num)
  obtain ⟨h1, h2, h3, h4, h5, h6⟩ := h
  refine ⟨?_, ?_, ?_, ?_, ?_, ?_⟩
  · exact h1 2 30 (by norm_num)
  · exact h2 (-5) 0 20 (by norm_num) (by norm_num) (by norm_num)
  · exact h3 7 3 40 (by norm_num) (by norm_num) (by norm_num)
  · have := h4 1 (by norm_num)
    simpa using this
  · exact h5 (-1) (by norm_num)
  · exact h6 3 (by norm_num)

/-- Element access through `mapT`. -/
theorem mapT_getD (f : ℚ → ℚ) (t : Tensor) (i : ℕ) (h : i < t.data.length) :
    (mapT f t).data.getD i 0 = f (t.data.getD i 0) := by
  show (t.data.map f).getD i 0 = f (t.data.getD i 0)
  rw [List.getD_eq_getElem _ _ (by simpa using h), List.getD_eq_getElem _ _ h,
    List.getElem_map]

/-- `ewBinop` of a rank-1 tensor with a scalar: succeeds, keeps the shape,
and acts elementwise. -/
theorem ewBinop_vec_scalar (f : ℚ → ℚ → ℚ) (a : Tensor) (q : ℚ) (n : ℕ)
    (ha : a.shape = [n]) :
    ∃ t, ewBinop f a (scalarT q) = .ok t ∧ t.shape = [n] ∧ t.data.length = n ∧
      ∀ i, i < n → t.data.getD i 0 = f (a.data.getD i 0) q := by
  have hb : broadcastStaticShape a.shape (scalarT q).shape = some [n] := by
    rw [ha]; exact bcast_vec_scalar n
  refine ⟨_, ewBinop_ok f a (scalarT q) [n] hb, rfl, by simp, ?_⟩
  intro i hi
  rw [getD_range_map _ _ _ (by rw [prod_vec]; exact hi)]
  rw [elemAt_vec a n i ha hi, elemAt_scalar]

/-- `ewBinop` of a scalar with a rank-1 tensor. -/
theorem ewBinop_scalar_vec (f : ℚ → ℚ → ℚ) (q : ℚ) (b : Tensor) (n : ℕ)
    (hb : b.shape = [n]) :
    ∃ t, ewBinop f (scalarT q) b = .ok t ∧ t.shape = [n] ∧ t.data.length = n ∧
      ∀ i, i < n → t.data.getD i 0 = f q (b.data.getD i 0) := by
  have hbc : broadcastStaticShape (scalarT q).shape b.shape = some [n] := by
    rw [hb]; exact bcast_scalar_vec n
  refine ⟨_, ewBinop_ok f (scalarT q) b [n] hbc, rfl, by simp, ?_⟩
  intro i hi
  rw [getD_range_map _ _ _ (by rw [prod_vec]; exact hi)]
  rw [elemAt_vec b n i hb hi, elemAt_scalar]

/-- `ewBinop` of two rank-1 tensors of the same length. -/
theorem ewBinop_vec_vec (f : ℚ → ℚ → ℚ) (a b : Tensor) (n : ℕ)
    (ha : a.shape = [n]) (hb : b.shape = [n]) :
    ∃ t, ewBinop f a b = .ok t ∧ t.shape = [n] ∧ t.data.length = n ∧
      ∀ i, i < n → t.data.getD i 0 = f (a.data.getD i 0) (b.data.getD i 0) := by
  have hbc : broadcastStaticShape a.shape b.shape = some [n] := by
    rw [ha, hb]; exact bcast_vec_vec n
  refine ⟨_, ewBinop_ok f a b [n] hbc, rfl, by simp, ?_⟩
  intro i hi
  rw [getD_range_map _ _ _ (by rw [prod_vec]; exact hi)]
  rw [elemAt_vec a n i ha hi, elemAt_vec b n i hb hi]

/-- `normalT` on two rank-1 operands with `shape=None`: succeeds with the
same rank-1 shape. -/
theorem normalT_vec_vec (env : TFEnv) (s : ℕ × ℕ) (mean std : Tensor) (n : ℕ)
    (hm : mean.shape = [n]) (hs : std.shape = [n]) :
    ∃ t, normalT env s mean std Option.none = .ok t ∧ t.shape = [n] ∧
      t.data.length = n := by
  have hb : broadcastStaticShape mean.shape std.shape = some [n] := by
    rw [hm, hs]; exact bcast_vec_vec n
  exact ⟨_, normalT_ok env s mean std Option.none [n] hb, rfl, by simp [outShape]⟩

/-- `uniformT` of two scalars with an explicit leading shape `[n]`. -/
theorem uniformT_scalars (env : TFEnv) (s : ℕ × ℕ) (lo hi : ℚ) (n : ℕ) :
    ∃ t, uniformT env s (scalarT lo) (scalarT hi) (some [n]) = .ok t ∧
      t.shape = [n] ∧ t.data.length = n := by
  refine ⟨_, uniformT_ok env s (scalarT lo) (scalarT hi) (some [n]) [] rfl, ?_, ?_⟩
  · simp [outShape]
  · simp [outShape]

/-- `binomialT` with rank-1 counts and scalar probs: succeeds, keeps the
shape, and draws elementwise from the clipped probability. -/
theorem binomialT_vec_scalar (env : TFEnv) (s : ℕ × ℕ) (counts : Tensor) (q : ℚ)
    (n : ℕ) (hc : counts.shape = [n]) :
    ∃ t, binomialT env s counts (scalarT q) Option.none = .ok t ∧ t.shape = [n] ∧
      t.data.length = n ∧ ∀ i, i < n → t.data.getD i 0 =
        ((env.statelessBinomial s (counts.data.getD i 0) (min (max q 0) 1) i : ℤ) : ℚ) := by
  have hb : broadcastStaticShape counts.shape (scalarT q).shape = some [n] := by
    rw [hc]; exact bcast_vec_scalar n
  refine ⟨_, binomialT_ok env s counts (scalarT q) Option.none [n] hb, rfl,
    by simp [outShape], ?_⟩
  intro i hi
  simp only [outShape]
  rw [getD_range_map _ _ _ (by rw [prod_vec]; exact hi)]
  rw [elemAt_vec counts n i hc hi]
  have hcl : clipT 0 1 (scalarT q) = scalarT (min (max q 0) 1) := rfl
  rw [hcl, elemAt_scalar]

/-- `binomialT` with rank-1 counts and rank-1 probs of the same length. -/
theorem binomialT_vec_vec (env : TFEnv) (s : ℕ × ℕ) (counts probs : Tensor) (n : ℕ)
    (hc : counts.shape = [n]) (hp : probs.shape = [n]) (hpl : probs.data.length = n) :
    ∃ t, binomialT env s counts probs Option.none = .ok t ∧ t.shape = [n] ∧
      t.data.length = n ∧ ∀ i, i < n → t.data.getD i 0 =
        ((env.statelessBinomial s (counts.data.getD i 0)
          (min (max (probs.data.getD i 0) 0) 1) i : ℤ) : ℚ) := by
  have hb : broadcastStaticShape counts.shape (clipT 0 1 probs).shape = some [n] := by
    show broadcastStaticShape counts.shape probs.shape = some [n]
    rw [hc, hp]; exact bcast_vec_vec n
  refine ⟨_, binomialT_ok env s counts probs Option.none [n] (by simpa using hb), rfl,
    by simp [outShape], ?_⟩
  intro i hi
  simp only [outShape]
  rw [getD_range_map _ _ _ (by rw [prod_vec]; exact hi)]
  rw [elemAt_vec counts n i hc hi]
  have hsh : (clipT 0 1 probs).shape = [n] := hp
  rw [elemAt_vec (clipT 0 1 probs) n i hsh hi]
  have : (clipT 0 1 probs).data.getD i 0 = min (max (probs.data.getD i 0) 0) 1 :=
    mapT_getD _ probs i (by rw [hpl]; exact hi)
  rw [this]

/-- `truncatedNormalT` with bounds 0 and 1 on rank-1 operands: always
succeeds (0 < 1) with the same rank-1 shape. -/
theorem truncatedNormalT_vec_vec01 (env : TFEnv) (s : ℕ × ℕ) (mean std : Tensor)
    (n : ℕ) (hm : mean.shape = [n]) (hs : std.shape = [n]) :
    ∃ t, truncatedNormalT env s mean std Option.none (some 0) (some 1) = .ok t ∧
      t.shape = [n] ∧ t.data.length = n := by
  obtain ⟨rv, hrv, hrs, hrl⟩ := normalT_vec_vec env s mean std n hm hs
  refine ⟨whereGE 1 (whereLE 0 rv), ?_, ?_, ?_⟩
  · simp [truncatedNormalT, hrv, Bind.bind, Except.bind, show (0 : ℚ) < 1 by norm_num]
  · exact hrs
  · simpa [whereGE, whereLE] using hrl

/-- The QuenchingFano stage always succeeds on a rank-1 energy tensor and,
under the binomial support property, returns a tensor of non-negative
integers of the same length. -/
theorem quenchingFano_ok (env : TFEnv) (hB : BinomSupport env) (s1 s2 : ℕ × ℕ)
    (p : Params) (energy : Tensor) (n : ℕ) (he : energy.shape = [n]) :
    ∃ t, quenchingFanoSim env s1 s2 p energy = .ok t ∧ t.shape = [n] ∧
      t.data.length = n ∧ ∀ i, i < n → ∃ z : ℤ, t.data.getD i 0 = (z : ℚ) ∧ 0 ≤ z := by
  obtain ⟨a1, e1, hs1, hl1, _⟩ := ewBinop_vec_scalar (· / ·) energy p.w n he
  obtain ⟨a2, e2, hs2, hl2, _⟩ := ewBinop_vec_scalar (· * ·) a1 p.fano n hs1
  have hms : (mapT sqrtQ a2).shape = [n] := hs2
  obtain ⟨a3, e3, hs3, hl3⟩ := normalT_vec_vec env s1 a1 (mapT sqrtQ a2) n hs1 hms
  have hrs : (mapT roundQ a3).shape = [n] := hs3
  obtain ⟨a5, e5, hs5, hl5, hv5⟩ :=
    binomialT_vec_scalar env s2 (mapT roundQ a3) p.lindhard n hrs
  refine ⟨a5, ?_, hs5, hl5, ?_⟩
  · simp [quenchingFanoSim, e1, e2, e3, e5, Bind.bind, Except.bind]
  · intro i hi
    exact ⟨_, hv5 i hi, (hB s2 _ _ i).1⟩

/-- The Ionization stage always succeeds on a rank-1 quanta tensor and,
under the binomial support property, returns non-negative integers bounded
by the corresponding quanta element. -/
theorem ionization_ok (env : TFEnv) (hB : BinomSupport env) (s : ℕ × ℕ) (p : Params)
    (nq : Tensor) (n : ℕ) (hq : nq.shape = [n]) :
    ∃ t, ionizationSim env s p nq = .ok t ∧ t.shape = [n] ∧ t.data.length = n ∧
      ∀ i, i < n → ∃ z : ℤ, t.data.getD i 0 = (z : ℚ) ∧ 0 ≤ z ∧
        (z : ℚ) ≤ max (nq.data.getD i 0) 0 := by
  obtain ⟨t, e, hs, hl, hv⟩ :=
    binomialT_vec_scalar env s nq (1 / (1 + p.ex_ion_ratio)) n hq
  refine ⟨t, e, hs, hl, ?_⟩
  intro i hi
  exact ⟨_, hv i hi, (hB s _ _ i).1, (hB s _ _ i).2⟩

/-- The mTI mean-recombination formula always succeeds on a rank-1 energy
tensor, with the same length. -/
theorem mTIMeanRecomb_ok (env : TFEnv) (p : Params) (energy : Tensor) (n : ℕ)
    (he : energy.shape = [n]) :
    ∃ t, mTIMeanRecomb env p energy = .ok t ∧ t.shape = [n] ∧ t.data.length = n := by
  obtain ⟨t1, e1, hs1, hl1, _⟩ := ewBinop_vec_scalar (· / ·) energy p.w n he
  obtain ⟨t2, e2, hs2, hl2, _⟩ :=
    ewBinop_vec_scalar (· / ·) t1 (1 + p.ex_ion_ratio) n hs1
  have hne : (mapT Neg.neg energy).shape = [n] := he
  obtain ⟨t3, e3, hs3, hl3, _⟩ :=
    ewBinop_vec_scalar (· / ·) (mapT Neg.neg energy) p.omega n hne
  obtain ⟨t4, e4, hs4, hl4, _⟩ := ewBinop_vec_scalar (· * ·) t2 p.gamma n hs2
  have hexp : (mapT env.texp t3).shape = [n] := hs3
  obtain ⟨t5, e5, hs5, hl5, _⟩ :=
    ewBinop_vec_vec (· * ·) t4 (mapT env.texp t3) n hs4 hexp
  obtain ⟨t6, e6, hs6, hl6, _⟩ :=
    ewBinop_vec_scalar (· * ·) t5 (env.fpow p.field (-p.delta)) n hs5
  obtain ⟨t7, e7, hs7, hl7, _⟩ := ewBinop_vec_scalar (· / ·) t6 4 n hs6
  obtain ⟨t8, e8, hs8, hl8, _⟩ := ewBinop_vec_scalar (· - ·) energy p.q0 n he
  have hnf : (mapT Neg.neg t8).shape = [n] := hs8
  obtain ⟨t9, e9, hs9, hl9, _⟩ :=
    ewBinop_vec_scalar (· / ·) (mapT Neg.neg t8) p.q1 n hnf
  have hef : (mapT env.texp t9).shape = [n] := hs9
  obtain ⟨t10, e10, hs10, hl10, _⟩ :=
    ewBinop_scalar_vec (· + ·) 1 (mapT env.texp t9) n hef
  obtain ⟨t11, e11, hs11, hl11, _⟩ := ewBinop_scalar_vec (· / ·) 1 t10 n hs10
  obtain ⟨t12, e12, hs12, hl12, _⟩ := ewBinop_scalar_vec (· + ·) 1 t7 n hs7
  have hlg : (mapT env.tlog t12).shape = [n] := hs12
  obtain ⟨t13, e13, hs13, hl13, _⟩ :=
    ewBinop_vec_vec (· / ·) (mapT env.tlog t12) t7 n hlg hs7
  obtain ⟨t14, e14, hs14, hl14, _⟩ := ewBinop_scalar_vec (· - ·) 1 t13 n hs13
  obtain ⟨t15, e15, hs15, hl15, _⟩ := ewBinop_vec_vec (· * ·) t14 t11 n hs14 hs11
  refine ⟨t15, ?_, hs15, hl15⟩
  simp [mTIMeanRecomb, e1, e2, e3, e4, e5, e6, e7, e8, e9, e10, e11, e12, e13, e14,
    e15, Bind.bind, Except.bind]

/-- The mTI std-recombination formula always succeeds on a rank-1 energy
tensor, with the same length. -/
theorem mTIStdRecomb_ok (env : TFEnv) (p : Params) (energy : Tensor) (n : ℕ)
    (he : energy.shape = [n]) :
    ∃ t, mTIStdRecomb env p energy = .ok t ∧ t.shape = [n] ∧ t.data.length = n := by
  have hne : (mapT Neg.neg energy).shape = [n] := he
  obtain ⟨u1, f1, gs1, gl1, _⟩ :=
    ewBinop_vec_scalar (· / ·) (mapT Neg.neg energy) p.q3 n hne
  have hex : (mapT env.texp u1).shape = [n] := gs1
  obtain ⟨u2, f2, gs2, gl2, _⟩ := ewBinop_scalar_vec (· - ·) 1 (mapT env.texp u1) n hex
  obtain ⟨u3, f3, gs3, gl3, _⟩ := ewBinop_scalar_vec (· * ·) p.q2 u2 n gs2
  refine ⟨u3, ?_, gs3, gl3⟩
  simp [mTIStdRecomb, f1, f2, f3, Bind.bind, Except.bind]

/-- The mTI stage always succeeds on a rank-1 energy tensor, with the same
length (its output is in any case clipped into [0, 1]). -/
theorem mTISim_ok (env : TFEnv) (s : ℕ × ℕ) (p : Params) (energy : Tensor) (n : ℕ)
    (he : energy.shape = [n]) :
    ∃ t, mTISim env s p energy = .ok t ∧ t.shape = [n] ∧ t.data.length = n := by
  obtain ⟨m, em, hsm, hlm⟩ := mTIMeanRecomb_ok env p energy n he
  obtain ⟨sd, esd, hssd, hlsd⟩ := mTIStdRecomb_ok env p energy n he
  obtain ⟨r, er, hsr, hlr⟩ := truncatedNormalT_vec_vec01 env s m sd n hsm hssd
  exact ⟨r, by simp [mTISim, em, esd, er, Bind.bind, Except.bind], hsr, hlr⟩

/-- C1: for every batch size `n`, the full XENON1T ER mTI pipeline succeeds
and returns two tensors `(Nph, Ne)` of length `n` such that elementwise
`Nph + Ne` equals the internally produced quanta tensor `Nq` and every
element of `Nph` and of `Ne` is a non-negative integer. -/
theorem c1_pipeline_conservation (env : TFEnv) (hB : BinomSupport env) (c : Clock)
    (k : ℕ) (p : Params) (lower upper : ℚ) (n : ℕ) :
    ∃ energy nq ni nph neT,
      energySpecSim env (getSeed c k) lower upper n = .ok energy ∧
      quenchingFanoSim env (getSeed c (k + 2)) (getSeed c (k + 4)) p energy = .ok nq ∧
      ionizationSim env (getSeed c (k + 6)) p nq = .ok ni ∧
      xenon1tSimulate env c k p lower upper n = .ok (nph, neT) ∧
      nph.shape = [n] ∧ neT.shape = [n] ∧
      nph.data.length = n ∧ neT.data.length = n ∧
      ∀ i, i < n →
        nph.data.getD i 0 + neT.data.getD i 0 = nq.data.getD i 0 ∧
        (∃ a : ℕ, nph.data.getD i 0 = (a : ℚ)) ∧
        ∃ b : ℕ, neT.data.getD i 0 = (b : ℚ) := by
  obtain ⟨energy, eE, hsE, hlE⟩ := uniformT_scalars env (getSeed c k) lower upper n
  have eE' : energySpecSim env (getSeed c k) lower upper n = .ok energy := eE
  obtain ⟨nq, eQ, hsQ, hlQ, hvQ⟩ :=
    quenchingFano_ok env hB (getSeed c (k + 2)) (getSeed c (k + 4)) p energy n hsE
  obtain ⟨ni, eI, hsI, hlI, hvI⟩ :=
    ionization_ok env hB (getSeed c (k + 6)) p nq n hsQ
  obtain ⟨recomb, eR, hsR, hlR⟩ := mTISim_ok env (getSeed c (k + 8)) p energy n hsE
  obtain ⟨pr, ePr, hsPr, hlPr, _⟩ := ewBinop_scalar_vec (· - ·) 1 recomb n hsR
  obtain ⟨neT, eN, hsN, hlN, hvN⟩ :=
    binomialT_vec_vec env (getSeed c (k + 10)) ni pr n hsI hsPr hlPr
  obtain ⟨nph, eP, hsP, hlP, hvP⟩ := ewBinop_vec_vec (· - ·) nq neT n hsQ hsN
  refine ⟨energy, nq, ni, nph, neT, eE', eQ, eI, ?_, hsP, hsN, hlP, hlN, ?_⟩
  · simp [xenon1tSimulate, energySpecSim, eE, eQ, eI, eR, recombSim, ePr, eN, eP,
      Bind.bind, Except.bind]
  · intro i hi
    obtain ⟨zq, hzq, hzq0⟩ := hvQ i hi
    obtain ⟨zi, hzi, hzi0, hzile⟩ := hvI i hi
    have hNe := hvN i hi
    have hn0 : 0 ≤ env.statelessBinomial (getSeed c (k + 10)) (ni.data.getD i 0)
        (min (max (pr.data.getD i 0) 0) 1) i := (hB _ _ _ _).1
    have hnle : (env.statelessBinomial (getSeed c (k + 10)) (ni.data.getD i 0)
        (min (max (pr.data.getD i 0) 0) 1) i : ℚ) ≤ max (ni.data.getD i 0) 0 :=
      (hB _ _ _ _).2
    generalize hd : env.statelessBinomial (getSeed c (k + 10)) (ni.data.getD i 0)
        (min (max (pr.data.getD i 0) 0) 1) i = d at hNe hn0 hnle
    have hPh := hvP i hi
    have hqmax : max ((zq : ℚ)) 0 = (zq : ℚ) := max_eq_left (by exact_mod_cast hzq0)
    have himax : max ((zi : ℚ)) 0 = (zi : ℚ) := max_eq_left (by exact_mod_cast hzi0)
    rw [hzq, hqmax] at hzile
    rw [hzi, himax] at hnle
    have hdq : (d : ℚ) ≤ (zq : ℚ) := le_trans hnle hzile
    have hdzq : d ≤ zq := by exact_mod_cast hdq
    refine ⟨?_, ?_, ?_⟩
    · rw [hPh]; ring
    · refine ⟨(zq - d).toNat, ?_⟩
      rw [hPh, hzq, hNe]
      have h1 : 0 ≤ zq - d := by omega
      have h2 := congrArg (fun z : ℤ => (z : ℚ)) (Int.toNat_of_nonneg h1)
      push_cast at h2
      linarith
    · refine ⟨d.toNat, ?_⟩
      rw [hNe]
      have h2 := congrArg (fun z : ℤ => (z : ℚ)) (Int.toNat_of_nonneg hn0)
      push_cast at h2
      linarith

/-- C1 (witness): the pipeline theorem applied to the all-zero kernel
environment, a constant clock, the default physical parameters, the energy
window [1, 10] and batch size 3. -/
theorem c1_pipeline_conservation_witness :
    ∃ energy nq ni nph neT,
      energySpecSim tfEnv0 (getSeed (fun _ => 0) 0) 1 10 3 = .ok energy ∧
      quenchingFanoSim tfEnv0 (getSeed (fun _ => 0) (0 + 2)) (getSeed (fun _ => 0) (0 + 4))
        ⟨138 / 10000, 1 / 10, 1, 124 / 1000, 31, 24 / 100, 120, 113 / 100, 47 / 100,
          41 / 1000, 17 / 10, 59 / 1000⟩ energy = .ok nq ∧
      ionizationSim tfEnv0 (getSeed (fun _ => 0) (0 + 6))
        ⟨138 / 10000, 1 / 10, 1, 124 / 1000, 31, 24 / 100, 120, 113 / 100, 47 / 100,
          41 / 1000, 17 / 10, 59 / 1000⟩ nq = .ok ni ∧
      xenon1tSimulate tfEnv0 (fun _ => 0) 0
        ⟨138 / 10000, 1 / 10, 1, 124 / 1000, 31, 24 / 100, 120, 113 / 100, 47 / 100,
          41 / 1000, 17 / 10, 59 / 1000⟩ 1 10 3 = .ok (nph, neT) ∧
      nph.shape = [3] ∧ neT.shape = [3] ∧
      nph.data.length = 3 ∧ neT.data.length = 3 ∧
      ∀ i, i < 3 →
        nph.data.getD i 0 + neT.data.getD i 0 = nq.data.getD i 0 ∧
        (∃ a : ℕ, nph.data.getD i 0 = (a : ℚ)) ∧
        ∃ b : ℕ, neT.data.getD i 0 = (b : ℚ) :=
  c1_pipeline_conservation tfEnv0 (fun _ _ _ _ => ⟨le_refl 0, by simp [tfEnv0]⟩)
    (fun _ => 0) 0
    ⟨138 / 10000, 1 / 10, 1, 124 / 1000, 31, 24 / 100, 120, 113 / 100, 47 / 100,
      41 / 1000, 17 / 10, 59 / 1000⟩ 1 10 3

end BBTF
